import Mathlib

/-!
# Verification of `garden_advice.py`

Shallow embedding of the garden advice program: input normalization,
alias resolution with error accumulation, and advice rendering from the
static lookup tables.  Strings are modelled through their character
lists (`String.data`); Python dictionaries are modelled as association
lists queried with `List.lookup`, which matches Python's semantics for
these literal tables (no duplicate keys).
-/

namespace Garden

/-- ASCII whitespace, by code point: space, tab, newline, carriage
return, vertical tab, form feed.  Models the whitespace class used by
Python's `str.strip()` / `str.split()` (restricted to ASCII, which is
all that the program's vocabulary needs). -/
def isWs (c : Char) : Bool :=
  c.toNat == 32 || c.toNat == 9 || c.toNat == 10 || c.toNat == 13 ||
  c.toNat == 11 || c.toNat == 12

/-- Per-character model of Python's `str.lower()` (basic latin letters,
exactly as Lean core's `Char.toLower`). -/
def pyLower (c : Char) : Char :=
  if 65 ≤ c.toNat ∧ c.toNat ≤ 90 then Char.ofNat (c.toNat + 32) else c

/-- `str.strip()`: drop leading and trailing whitespace. -/
def pyStrip (l : List Char) : List Char :=
  ((l.dropWhile isWs).reverse.dropWhile isWs).reverse

/-- Worker for `str.split()` (no separator argument): `acc` holds the
(reversed) word currently being read. -/
def splitAux : List Char → List Char → List (List Char)
  | [], acc => if acc = [] then [] else [acc.reverse]
  | c :: cs, acc =>
    if isWs c then
      if acc = [] then splitAux cs [] else acc.reverse :: splitAux cs []
    else splitAux cs (c :: acc)

/-- Python `str.split()`: split on whitespace runs, dropping empties. -/
def pySplit (l : List Char) : List (List Char) := splitAux l []

/-- Python `" ".join(words)`. -/
def joinSp : List (List Char) → List Char
  | [] => []
  | [w] => w
  | w :: x :: t => w ++ ' ' :: joinSp (x :: t)

/-- `normalize` from the source, on character lists:
`" ".join(text.strip().lower().split())`. -/
def normalizeL (l : List Char) : List Char :=
  joinSp (pySplit ((pyStrip l).map pyLower))

/-- `normalize(text)`: lowercase, trim whitespace, collapse internal
spaces. -/
def normalize (s : String) : String := ⟨normalizeL s.data⟩

/-- Independent rendering of the spec's description of the normalizer:
each maximal run of whitespace is replaced by one single space
(`collapseAux` tracks whether the previous character was whitespace). -/
def collapseAux : Bool → List Char → List Char
  | _, [] => []
  | prevWs, c :: cs =>
    if isWs c then
      if prevWs then collapseAux true cs else ' ' :: collapseAux true cs
    else c :: collapseAux false cs

/-- The spec's normalizer, stated from its words: "lowercase text with
leading/trailing whitespace removed and internal runs of whitespace
collapsed to single spaces". -/
def normalizeSpecL (l : List Char) : List Char :=
  collapseAux false ((pyStrip l).map pyLower)

/-- `normalizeSpecL` lifted to `String`. -/
def normalizeSpec (s : String) : String := ⟨normalizeSpecL s.data⟩

/-- Python `text.split("\n")`: split on newline characters, keeping
empty pieces (used to talk about "newline-separated lines"). -/
def splitLines : List Char → List (List Char)
  | [] => [[]]
  | c :: cs =>
    if c = '\n' then [] :: splitLines cs
    else
      match splitLines cs with
      | [] => [[c]]
      | l :: ls => (c :: l) :: ls

/-- A single ASCII apostrophe, as a string. -/
def sq : String := ⟨[Char.ofNat 39]⟩

/-- `SEASON_ALIASES`: free-text season variants to canonical keys. -/
def SEASON_ALIASES : List (String × String) :=
  [("spring", "spring"), ("summer", "summer"), ("autumn", "autumn"),
   ("fall", "autumn"), ("winter", "winter")]

/-- `PLANT_ALIASES`: free-text plant variants to canonical keys. -/
def PLANT_ALIASES : List (String × String) :=
  [("flower", "flower"), ("flowers", "flower"), ("vegetable", "vegetable"),
   ("veg", "vegetable"), ("vegetables", "vegetable")]

/-- `ADVICE`: `advice[season][plant_type]` is a list of tip lines. -/
def ADVICE : List (String × List (String × List String)) :=
  [("spring",
    [("flower",
      ["Deadhead early blooms and add a balanced fertiliser.",
       "Divide overcrowded perennials."]),
     ("vegetable",
      ["Start cool-season crops and harden off seedlings.",
       "Prepare beds with compost."])]),
   ("summer",
    [("flower",
      ["Water in the morning and mulch to retain moisture.",
       "Pinch leggy annuals to encourage new blooms."]),
     ("vegetable",
      ["Water consistently and watch for pests (aphids, beetles).",
       "Harvest frequently to keep plants productive."])]),
   ("autumn",
    [("flower",
      ["Plant spring-flowering bulbs.",
       "Cut back spent annuals and tidy beds."]),
     ("vegetable",
      ["Sow/plant cool-season crops; protect from early frosts.",
       "Add leaf mulch to improve soil."])]),
   ("winter",
    [("flower",
      ["Protect tender perennials with covers in frost-prone areas.",
       "Plan next year’s colour scheme."]),
     ("vegetable",
      ["Clean and oil tools; plan crop rotation.",
       "Start seeds indoors where appropriate."])])]

/-- `RECOMMENDATIONS`: seasonal plant recommendations. -/
def RECOMMENDATIONS : List (String × List String) :=
  [("spring", ["Snapdragon", "Lettuce", "Radish"]),
   ("summer", ["Zinnia", "Tomato", "Basil"]),
   ("autumn", ["Crocus (bulbs)", "Kale", "Spinach"]),
   ("winter",
    ["Hellebore (mild climates)", "Microgreens", "Garlic (in mild regions)"])]

/-- The season error message built in `parse_inputs`. -/
def seasonErr (raw : String) : String :=
  "Unknown season: " ++ sq ++ raw ++ sq ++
  ". Try spring/summer/autumn(winter) or " ++ sq ++ "fall" ++ sq ++ "."

/-- The plant error message built in `parse_inputs`. -/
def plantErr (raw : String) : String :=
  "Unknown plant type: " ++ sq ++ raw ++ sq ++ ". Try " ++ sq ++ "flower" ++
  sq ++ " or " ++ sq ++ "vegetable" ++ sq ++ "."

/-- The `if raw_season is not None:` block of `parse_inputs`: resulting
season key and the errors this field contributes. -/
def resolve_season : Option String → Option String × List String
  | none => (none, [])
  | some rs =>
    match SEASON_ALIASES.lookup (normalize rs) with
    | some k => (some k, [])
    | none => (none, [seasonErr rs])

/-- The `if raw_plant is not None:` block of `parse_inputs`: resulting
plant key and the errors this field contributes. -/
def resolve_plant : Option String → Option String × List String
  | none => (none, [])
  | some rp =>
    match PLANT_ALIASES.lookup (normalize rp) with
    | some k => (some k, [])
    | none => (none, [plantErr rp])

/-- `parse_inputs(raw_season, raw_plant)`: season errors are appended
before plant errors, matching the statement order in the source. -/
def parse_inputs (raw_season raw_plant : Option String) :
    Option String × Option String × List String :=
  ((resolve_season raw_season).1, (resolve_plant raw_plant).1,
   (resolve_season raw_season).2 ++ (resolve_plant raw_plant).2)

/-- The fallback line of `get_advice`. -/
def fallbackLine : String := "No specific tips for this combination yet."

/-- `get_advice(season_key, plant_key)`: tips (or the fallback line),
then — when the season has recommendations — a blank line and the
recommendation footer, joined with newlines. -/
def get_advice (season_key plant_key : String) : String :=
  let season_bucket := (ADVICE.lookup season_key).getD []
  let plant_lines := (season_bucket.lookup plant_key).getD []
  let lines1 := if plant_lines = [] then [fallbackLine] else plant_lines
  let recs := (RECOMMENDATIONS.lookup season_key).getD []
  let lines2 :=
    if recs = [] then lines1
    else lines1 ++
      ["", "Suggested " ++ plant_key ++ "s for " ++ season_key ++ ": " ++
       String.intercalate ", " recs]
  String.intercalate "\n" lines2

theorem isWs_pyLower (c : Char) : isWs (pyLower c) = isWs c := by
  unfold pyLower
  split
  · next h =>
    obtain ⟨h1, h2⟩ := h
    have hws : isWs c = false := by
      simp only [isWs, Bool.or_eq_false_iff, beq_eq_false_iff_ne, ne_eq]
      omega
    rw [hws]
    generalize c.toNat = k at h1 h2 ⊢
    interval_cases k <;> decide
  · rfl

theorem pyLower_idem (c : Char) : pyLower (pyLower c) = pyLower c := by
  by_cases h : 65 ≤ c.toNat ∧ c.toNat ≤ 90
  · have hc : pyLower c = Char.ofNat (c.toNat + 32) := by
      unfold pyLower
      exact if_pos h
    rw [hc]
    obtain ⟨h1, h2⟩ := h
    generalize c.toNat = k at h1 h2 ⊢
    interval_cases k <;> decide
  · have hc : pyLower c = c := by
      unfold pyLower
      exact if_neg h
    rw [hc, hc]

theorem mem_of_head?_some {α : Type} (l : List α) (a : α) (h : l.head? = some a) :
    a ∈ l := by
  cases l with
  | nil => simp at h
  | cons b t =>
    simp only [List.head?_cons, Option.some.injEq] at h
    subst h
    exact List.mem_cons_self _ _

theorem mem_of_getLast?_some {α : Type} (l : List α) (a : α) (h : l.getLast? = some a) :
    a ∈ l :=
  List.mem_of_mem_getLast? (by simp [h])

theorem map_id_of_mem {α : Type} (f : α → α) :
    ∀ l : List α, (∀ a ∈ l, f a = a) → l.map f = l := by
  intro l
  induction l with
  | nil => intro _; rfl
  | cons a t ih =>
    intro h
    rw [List.map_cons, h a (List.mem_cons_self _ _),
      ih (fun b hb => h b (List.mem_cons_of_mem _ hb))]

theorem head?_dropWhile (p : Char → Bool) :
    ∀ (l : List Char) (c : Char), (l.dropWhile p).head? = some c → p c = false := by
  intro l
  induction l with
  | nil => intro c hc; simp at hc
  | cons d cs ih =>
    intro c hc
    rw [List.dropWhile_cons] at hc
    by_cases hd : p d = true
    · rw [if_pos hd] at hc
      exact ih c hc
    · rw [if_neg hd] at hc
      simp only [List.head?_cons, Option.some.injEq] at hc
      subst hc
      simpa using hd

theorem getLast?_dropWhile (p : Char → Bool) :
    ∀ l : List Char, l.dropWhile p ≠ [] →
      (l.dropWhile p).getLast? = l.getLast? := by
  intro l
  induction l with
  | nil => intro h; simp at h
  | cons d cs ih =>
    intro h
    rw [List.dropWhile_cons] at h ⊢
    by_cases hd : p d = true
    · rw [if_pos hd] at h ⊢
      rw [ih h]
      have hcs : cs ≠ [] := by
        intro hn
        subst hn
        simp at h
      cases cs with
      | nil => exact absurd rfl hcs
      | cons e es => rw [List.getLast?_cons_cons]
    · rw [if_neg hd]

theorem dropWhile_eq_self_of_head (l : List Char)
    (h : ∀ c, l.head? = some c → isWs c = false) : l.dropWhile isWs = l := by
  cases l with
  | nil => rfl
  | cons c cs =>
    have hc := h c rfl
    rw [List.dropWhile_cons, if_neg (by simp [hc])]

theorem pyStrip_head?_nonws (l : List Char) :
    ∀ c, (pyStrip l).head? = some c → isWs c = false := by
  intro c hc
  unfold pyStrip at hc
  rw [List.head?_reverse] at hc
  have hne : (l.dropWhile isWs).reverse.dropWhile isWs ≠ [] := by
    intro h
    rw [h] at hc
    simp at hc
  rw [getLast?_dropWhile isWs _ hne, List.getLast?_reverse] at hc
  exact head?_dropWhile isWs l c hc

theorem pyStrip_getLast?_nonws (l : List Char) :
    ∀ c, (pyStrip l).getLast? = some c → isWs c = false := by
  intro c hc
  unfold pyStrip at hc
  rw [List.getLast?_reverse] at hc
  exact head?_dropWhile isWs _ c hc

theorem splitAux_append_word :
    ∀ w : List Char, (∀ c ∈ w, isWs c = false) →
      ∀ l acc, splitAux (w ++ l) acc = splitAux l (w.reverse ++ acc) := by
  intro w
  induction w with
  | nil => intro _ l acc; simp
  | cons c w ih =>
    intro hw l acc
    have hc : isWs c = false := hw c (List.mem_cons_self _ _)
    rw [show (c :: w) ++ l = c :: (w ++ l) from rfl]
    rw [show splitAux (c :: (w ++ l)) acc = splitAux (w ++ l) (c :: acc) by
      simp [splitAux, hc]]
    rw [ih (fun d hd => hw d (List.mem_cons_of_mem _ hd)) l (c :: acc)]
    simp [List.append_assoc]

theorem splitAux_mem :
    ∀ (l acc : List Char), (∀ c ∈ acc, isWs c = false) →
      ∀ w ∈ splitAux l acc, w ≠ [] ∧ ∀ c ∈ w, isWs c = false := by
  intro l
  induction l with
  | nil =>
    intro acc hacc w hw
    by_cases h : acc = []
    · subst h
      simp [splitAux] at hw
    · simp only [splitAux, if_neg h, List.mem_singleton] at hw
      subst hw
      refine ⟨by simpa using h, fun c hc => hacc c (by simpa using hc)⟩
  | cons c cs ih =>
    intro acc hacc w hw
    by_cases hws : isWs c = true
    · by_cases h : acc = []
      · subst h
        simp only [splitAux, hws, if_true, if_pos rfl] at hw
        exact ih [] (by simp) w hw
      · simp only [splitAux, hws, if_true, if_neg h, List.mem_cons] at hw
        rcases hw with hw | hw
        · subst hw
          refine ⟨by simpa using h, fun d hd => hacc d (by simpa using hd)⟩
        · exact ih [] (by simp) w hw
    · simp only [splitAux, hws, if_false, Bool.false_eq_true] at hw
      refine ih (c :: acc) ?_ w hw
      intro d hd
      rcases List.mem_cons.mp hd with h | h
      · subst h
        simpa using hws
      · exact hacc d h

theorem splitAux_subset :
    ∀ (l acc : List Char) (w : List Char), w ∈ splitAux l acc →
      ∀ c ∈ w, c ∈ l ∨ c ∈ acc := by
  intro l
  induction l with
  | nil =>
    intro acc w hw c hc
    by_cases h : acc = []
    · subst h
      simp [splitAux] at hw
    · simp only [splitAux, if_neg h, List.mem_singleton] at hw
      subst hw
      exact Or.inr (by simpa using hc)
  | cons d cs ih =>
    intro acc w hw c hc
    by_cases hws : isWs d = true
    · by_cases h : acc = []
      · subst h
        simp only [splitAux, hws, if_true, if_pos rfl] at hw
        rcases ih [] w hw c hc with h2 | h2
        · exact Or.inl (List.mem_cons_of_mem _ h2)
        · simp at h2
      · simp only [splitAux, hws, if_true, if_neg h, List.mem_cons] at hw
        rcases hw with hw | hw
        · subst hw
          exact Or.inr (by simpa using hc)
        · rcases ih [] w hw c hc with h2 | h2
          · exact Or.inl (List.mem_cons_of_mem _ h2)
          · simp at h2
    · simp only [splitAux, hws, if_false, Bool.false_eq_true] at hw
      rcases ih (d :: acc) w hw c hc with h2 | h2
      · exact Or.inl (List.mem_cons_of_mem _ h2)
      · rcases List.mem_cons.mp h2 with h3 | h3
        · exact Or.inl (h3 ▸ List.mem_cons_self _ _)
        · exact Or.inr h3

theorem splitAux_ne_nil :
    ∀ (l acc : List Char), ((∃ c ∈ l, isWs c = false) ∨ acc ≠ []) →
      splitAux l acc ≠ [] := by
  intro l
  induction l with
  | nil =>
    intro acc h
    rcases h with ⟨c, hc, _⟩ | h
    · simp at hc
    · simp [splitAux, h]
  | cons c cs ih =>
    intro acc h
    by_cases hws : isWs c = true
    · by_cases ha : acc = []
      · subst ha
        rw [show splitAux (c :: cs) [] = splitAux cs [] by simp [splitAux, hws]]
        apply ih []
        left
        rcases h with ⟨d, hd, hdws⟩ | h
        · rcases List.mem_cons.mp hd with h3 | h3
          · subst h3
            rw [hws] at hdws
            exact absurd hdws (by simp)
          · exact ⟨d, h3, hdws⟩
        · exact absurd rfl h
      · simp [splitAux, hws, ha]
    · rw [show splitAux (c :: cs) acc = splitAux cs (c :: acc) by simp [splitAux, hws]]
      exact ih (c :: acc) (Or.inr (by simp))

theorem joinSp_concat :
    ∀ (ws : List (List Char)) (v : List Char), ws ≠ [] →
      joinSp (ws ++ [v]) = joinSp ws ++ ' ' :: v := by
  intro ws
  induction ws with
  | nil => intro v h; exact absurd rfl h
  | cons w t ih =>
    intro v _
    cases t with
    | nil => rfl
    | cons x t' =>
      rw [show (w :: x :: t') ++ [v] = w :: ((x :: t') ++ [v]) from rfl]
      rw [show (x :: t') ++ [v] = x :: (t' ++ [v]) from rfl]
      rw [show joinSp (w :: x :: (t' ++ [v])) = w ++ ' ' :: joinSp (x :: (t' ++ [v]))
        from rfl]
      rw [show (x :: (t' ++ [v])) = (x :: t') ++ [v] from rfl]
      rw [ih v (by simp)]
      rw [show joinSp (w :: x :: t') = w ++ ' ' :: joinSp (x :: t') from rfl]
      simp [List.append_assoc]

theorem reverse_joinSp :
    ∀ ws : List (List Char),
      (joinSp ws).reverse = joinSp ((ws.map List.reverse).reverse) := by
  intro ws
  induction ws with
  | nil => rfl
  | cons w t ih =>
    cases t with
    | nil => rfl
    | cons x t' =>
      rw [show joinSp (w :: x :: t') = w ++ ' ' :: joinSp (x :: t') from rfl]
      rw [List.reverse_append, List.reverse_cons, ih]
      rw [show ((w :: x :: t').map List.reverse).reverse
          = (((x :: t').map List.reverse).reverse) ++ [w.reverse] by simp]
      rw [joinSp_concat _ _ (by simp)]
      simp [List.append_assoc]

theorem joinSp_head? :
    ∀ (w : List Char) (t : List (List Char)), w ≠ [] →
      (joinSp (w :: t)).head? = w.head? := by
  intro w t hw
  cases t with
  | nil => rfl
  | cons x t' =>
    rw [show joinSp (w :: x :: t') = w ++ ' ' :: joinSp (x :: t') from rfl]
    cases w with
    | nil => exact absurd rfl hw
    | cons c w' => rfl

theorem joinSp_dropWhile (ws : List (List Char))
    (h1 : ∀ w ∈ ws, w ≠ []) (h2 : ∀ w ∈ ws, ∀ c ∈ w, isWs c = false) :
    (joinSp ws).dropWhile isWs = joinSp ws := by
  cases ws with
  | nil => rfl
  | cons w t =>
    apply dropWhile_eq_self_of_head
    intro c hc
    rw [joinSp_head? w t (h1 w (List.mem_cons_self _ _))] at hc
    exact h2 w (List.mem_cons_self _ _) c (mem_of_head?_some w c hc)

theorem pyStrip_joinSp (ws : List (List Char))
    (h1 : ∀ w ∈ ws, w ≠ []) (h2 : ∀ w ∈ ws, ∀ c ∈ w, isWs c = false) :
    pyStrip (joinSp ws) = joinSp ws := by
  have hM1 : ∀ u ∈ (ws.map List.reverse).reverse, u ≠ [] := by
    intro u hu
    simp only [List.mem_reverse, List.mem_map] at hu
    obtain ⟨v, hv, rfl⟩ := hu
    simpa using h1 v hv
  have hM2 : ∀ u ∈ (ws.map List.reverse).reverse, ∀ c ∈ u, isWs c = false := by
    intro u hu c hc
    simp only [List.mem_reverse, List.mem_map] at hu
    obtain ⟨v, hv, rfl⟩ := hu
    exact h2 v hv c (by simpa using hc)
  unfold pyStrip
  rw [joinSp_dropWhile ws h1 h2, reverse_joinSp ws,
    joinSp_dropWhile _ hM1 hM2, ← reverse_joinSp ws, List.reverse_reverse]

theorem pySplit_joinSp :
    ∀ ws : List (List Char),
      (∀ w ∈ ws, w ≠ []) → (∀ w ∈ ws, ∀ c ∈ w, isWs c = false) →
      pySplit (joinSp ws) = ws := by
  intro ws
  induction ws with
  | nil => intro _ _; rfl
  | cons w t ih =>
    intro h1 h2
    have hw1 : w ≠ [] := h1 w (List.mem_cons_self _ _)
    have hw2 : ∀ c ∈ w, isWs c = false := h2 w (List.mem_cons_self _ _)
    cases t with
    | nil =>
      show pySplit (joinSp [w]) = [w]
      unfold pySplit
      have h3 := splitAux_append_word w hw2 [] []
      simp only [List.append_nil] at h3
      rw [show joinSp [w] = w from rfl, h3]
      simp [splitAux, hw1]
    | cons x t' =>
      show pySplit (w ++ ' ' :: joinSp (x :: t')) = w :: x :: t'
      unfold pySplit
      rw [splitAux_append_word w hw2 (' ' :: joinSp (x :: t')) [], List.append_nil]
      have hwr : w.reverse ≠ [] := by simpa using hw1
      have hsp : isWs ' ' = true := by decide
      rw [show splitAux (' ' :: joinSp (x :: t')) w.reverse
          = w.reverse.reverse :: splitAux (joinSp (x :: t')) [] by
        simp [splitAux, hsp, hwr]]
      rw [List.reverse_reverse]
      have ih' := ih (fun u hu => h1 u (List.mem_cons_of_mem _ hu))
        (fun u hu => h2 u (List.mem_cons_of_mem _ hu))
      unfold pySplit at ih'
      rw [ih']

theorem map_pyLower_joinSp :
    ∀ ws : List (List Char),
      (joinSp ws).map pyLower = joinSp (ws.map (List.map pyLower)) := by
  intro ws
  induction ws with
  | nil => rfl
  | cons w t ih =>
    cases t with
    | nil => rfl
    | cons x t' =>
      rw [show joinSp (w :: x :: t') = w ++ ' ' :: joinSp (x :: t') from rfl]
      rw [List.map_append, List.map_cons, ih]
      rw [show pyLower ' ' = ' ' by decide]
      rfl

theorem splitAux_collapse :
    ∀ x : List Char, (∀ c, x.getLast? = some c → isWs c = false) →
      (∀ w : List Char, w ≠ [] →
        joinSp (splitAux x w.reverse) = w ++ collapseAux false x) ∧
      joinSp (splitAux x []) = collapseAux true x := by
  intro x
  induction x with
  | nil =>
    intro _
    constructor
    · intro w hw
      have hwr : w.reverse ≠ [] := by simpa using hw
      rw [show splitAux [] w.reverse = [w.reverse.reverse] by simp [splitAux, hwr]]
      rw [List.reverse_reverse]
      rw [show joinSp [w] = w from rfl, show collapseAux false [] = [] from rfl,
        List.append_nil]
    · rfl
  | cons c cs ih =>
    intro hlast
    have hlast' : ∀ d, cs.getLast? = some d → isWs d = false := by
      intro d hd
      apply hlast
      cases cs with
      | nil => simp at hd
      | cons e es => rwa [List.getLast?_cons_cons]
    obtain ⟨ih1, ih2⟩ := ih hlast'
    by_cases hws : isWs c = true
    · have hcs : cs ≠ [] := by
        intro h
        subst h
        have hgl : ([c] : List Char).getLast? = some c := by simp
        have := hlast c hgl
        rw [hws] at this
        exact absurd this (by simp)
      have hsplit_ne : splitAux cs [] ≠ [] := by
        apply splitAux_ne_nil
        left
        rcases List.eq_nil_or_concat cs with h | ⟨L, b, h⟩
        · exact absurd h hcs
        · rw [List.concat_eq_append] at h
          rw [h]
          have hbl : (L ++ [b]).getLast? = some b := List.getLast?_concat L
          have hb : isWs b = false := hlast' b (by rw [h]; exact hbl)
          exact ⟨b, by simp, hb⟩
      constructor
      · intro w hw
        have hwr : w.reverse ≠ [] := by simpa using hw
        rw [show splitAux (c :: cs) w.reverse
            = w.reverse.reverse :: splitAux cs [] by simp [splitAux, hws, hwr]]
        rw [List.reverse_reverse]
        cases hsc : splitAux cs [] with
        | nil => exact absurd hsc hsplit_ne
        | cons u us =>
          rw [show joinSp (w :: u :: us) = w ++ ' ' :: joinSp (u :: us) from rfl]
          rw [← hsc, ih2]
          rw [show collapseAux false (c :: cs) = ' ' :: collapseAux true cs by
            simp [collapseAux, hws]]
      · rw [show splitAux (c :: cs) [] = splitAux cs [] by simp [splitAux, hws]]
        rw [ih2]
        rw [show collapseAux true (c :: cs) = collapseAux true cs by
          simp [collapseAux, hws]]
    · constructor
      · intro w hw
        rw [show splitAux (c :: cs) w.reverse = splitAux cs (c :: w.reverse) by
          simp [splitAux, hws]]
        rw [show (c :: w.reverse) = (w ++ [c]).reverse by simp]
        rw [ih1 (w ++ [c]) (by simp)]
        rw [show collapseAux false (c :: cs) = c :: collapseAux false cs by
          simp [collapseAux, hws]]
        simp
      · rw [show splitAux (c :: cs) [] = splitAux cs [c] by simp [splitAux, hws]]
        have h1 := ih1 [c] (by simp)
        rw [show ([c] : List Char).reverse = [c] from rfl] at h1
        rw [h1]
        rw [show collapseAux true (c :: cs) = c :: collapseAux false cs by
          simp [collapseAux, hws]]
        rfl

theorem joinSp_pySplit_eq_collapse (x : List Char)
    (hh : ∀ c, x.head? = some c → isWs c = false)
    (hl : ∀ c, x.getLast? = some c → isWs c = false) :
    joinSp (pySplit x) = collapseAux false x := by
  cases x with
  | nil => rfl
  | cons c cs =>
    have hc : isWs c = false := hh c rfl
    unfold pySplit
    rw [show splitAux (c :: cs) [] = splitAux cs [c] by simp [splitAux, hc]]
    have hlast' : ∀ d, cs.getLast? = some d → isWs d = false := by
      intro d hd
      apply hl
      cases cs with
      | nil => simp at hd
      | cons e es => rwa [List.getLast?_cons_cons]
    have h1 := (splitAux_collapse cs hlast').1 [c] (by simp)
    rw [show ([c] : List Char).reverse = [c] from rfl] at h1
    rw [h1]
    rw [show collapseAux false (c :: cs) = c :: collapseAux false cs by
      simp [collapseAux, hc]]
    rfl

theorem normalizeL_eq_spec (l : List Char) : normalizeL l = normalizeSpecL l := by
  unfold normalizeL normalizeSpecL
  apply joinSp_pySplit_eq_collapse
  · intro c hc
    rw [List.head?_map] at hc
    cases hh : (pyStrip l).head? with
    | none =>
      rw [hh] at hc
      simp at hc
    | some d =>
      rw [hh] at hc
      simp only [Option.map_some', Option.some.injEq] at hc
      subst hc
      rw [isWs_pyLower]
      exact pyStrip_head?_nonws l d hh
  · intro c hc
    rw [List.getLast?_map] at hc
    cases hh : (pyStrip l).getLast? with
    | none =>
      rw [hh] at hc
      simp at hc
    | some d =>
      rw [hh] at hc
      simp only [Option.map_some', Option.some.injEq] at hc
      subst hc
      rw [isWs_pyLower]
      exact pyStrip_getLast?_nonws l d hh

theorem normalizeL_idem (l : List Char) :
    normalizeL (normalizeL l) = normalizeL l := by
  have hw := splitAux_mem ((pyStrip l).map pyLower) [] (by simp)
  set ws := pySplit ((pyStrip l).map pyLower) with hws
  have h1 : ∀ w ∈ ws, w ≠ [] := fun w h => (hw w h).1
  have h2 : ∀ w ∈ ws, ∀ c ∈ w, isWs c = false := fun w h => (hw w h).2
  have h3 : ∀ w ∈ ws, ∀ c ∈ w, pyLower c = c := by
    intro w hmem c hc
    rcases splitAux_subset ((pyStrip l).map pyLower) [] w hmem c hc with h | h
    · obtain ⟨a, _, rfl⟩ := List.mem_map.mp h
      exact pyLower_idem a
    · simp at h
  show normalizeL (joinSp ws) = joinSp ws
  unfold normalizeL
  rw [pyStrip_joinSp ws h1 h2, map_pyLower_joinSp ws,
    map_id_of_mem (List.map pyLower) ws
      (fun w hmem => map_id_of_mem pyLower w (h3 w hmem)),
    pySplit_joinSp ws h1 h2]

theorem rec_lookup_ne_nil (s : String) (recs : List String)
    (h : RECOMMENDATIONS.lookup s = some recs) : recs ≠ [] := by
  simp only [RECOMMENDATIONS, List.lookup] at h
  repeat' split at h
  all_goals first
    | exact Option.noConfusion h
    | (injection h with h; subst h; simp)

/-- C1: whenever the (season, plant) pair has no tip list in the `ADVICE`
table, `get_advice` returns the fallback line, followed by a blank
separator line and the recommendation footer listing the season's
recommended plants; the separator and footer are omitted entirely when
the season key has no entry in `RECOMMENDATIONS`. -/
theorem get_advice_missing_pair_fallback (s p : String)
    (h : ((ADVICE.lookup s).getD []).lookup p = none) :
    get_advice s p =
      match RECOMMENDATIONS.lookup s with
      | none => fallbackLine
      | some recs => fallbackLine ++ "\n" ++ "" ++ "\n" ++
          ("Suggested " ++ p ++ "s for " ++ s ++ ": " ++
           String.intercalate ", " recs) := by
  cases hr : RECOMMENDATIONS.lookup s with
  | none =>
    simp only [get_advice, h, hr, Option.getD_none, if_pos rfl]
    rfl
  | some recs =>
    have hne : recs ≠ [] := rec_lookup_ne_nil s recs hr
    simp only [get_advice, h, hr, Option.getD_none, Option.getD_some,
      if_pos rfl, if_neg hne]
    rfl

/-- Witness for C1 at the concrete input ("spring", "cactus"), whose
pair has no tip list while the season has a recommendation entry. -/
theorem get_advice_missing_pair_fallback_witness :
    ((ADVICE.lookup "spring").getD []).lookup "cactus" = none ∧
    get_advice "spring" "cactus" =
      (match RECOMMENDATIONS.lookup "spring" with
       | none => fallbackLine
       | some recs => fallbackLine ++ "\n" ++ "" ++ "\n" ++
           ("Suggested " ++ "cactus" ++ "s for " ++ "spring" ++ ": " ++
            String.intercalate ", " recs)) :=
  ⟨by decide, get_advice_missing_pair_fallback "spring" "cactus" (by decide)⟩

/-- C2: `get_advice("summer", "vegetable")` contains the substring
"Water consistently", and its last newline-separated line contains
"Tomato". -/
theorem get_advice_summer_vegetable :
    ("Water consistently".data <:+: (get_advice "summer" "vegetable").data) ∧
    ("Tomato".data <:+:
      ((splitLines (get_advice "summer" "vegetable").data).getLast?.getD [])) := by
  constructor
  · exact ⟨[], (" and watch for pests (aphids, beetles).\nHarvest frequently to keep plants productive.\n\nSuggested vegetables for summer: Zinnia, Tomato, Basil").data,
      by decide⟩
  · exact ⟨("Suggested vegetables for summer: Zinnia, ").data, (", Basil").data,
      by decide⟩

/-- C3: `normalize` is a total function equal to the spec's description
of it: the input lowercased, with leading and trailing whitespace
removed and every internal whitespace run collapsed to a single space
(`normalizeSpec` renders that description independently of the code's
strip/lower/split/join pipeline). -/
theorem normalize_meets_spec (s : String) : normalize s = normalizeSpec s :=
  congrArg String.mk (normalizeL_eq_spec s.data)

/-- C4: `normalize` is idempotent. -/
theorem normalize_idem (s : String) : normalize (normalize s) = normalize s :=
  congrArg String.mk (normalizeL_idem s.data)

/-- C5: the raw season texts "Fall", "FALL" and " fall " all resolve
through `parse_inputs` to the canonical season key "autumn". -/
theorem parse_inputs_fall_aliases :
    (parse_inputs (some "Fall") none).1 = some "autumn" ∧
    (parse_inputs (some "FALL") none).1 = some "autumn" ∧
    (parse_inputs (some " fall ") none).1 = some "autumn" := by
  decide

/-- C6: a raw season text whose normalization is not a key of
`SEASON_ALIASES` yields no season key and exactly one error message for
the season field, and that message contains the raw text verbatim. -/
theorem parse_inputs_unknown_season (rs : String)
    (h : SEASON_ALIASES.lookup (normalize rs) = none) :
    parse_inputs (some rs) none = (none, none, [seasonErr rs]) ∧
    rs.data <:+: (seasonErr rs).data := by
  constructor
  · simp [parse_inputs, resolve_season, resolve_plant, h]
  · refine ⟨("Unknown season: " ++ sq).data,
      (sq ++ ". Try spring/summer/autumn(winter) or " ++ sq ++ "fall" ++ sq ++
       ".").data, ?_⟩
    simp [seasonErr, List.append_assoc]

/-- Witness for C6 at the concrete unknown season "monsoon". -/
theorem parse_inputs_unknown_season_witness :
    SEASON_ALIASES.lookup (normalize "monsoon") = none ∧
    (parse_inputs (some "monsoon") none = (none, none, [seasonErr "monsoon"]) ∧
     "monsoon".data <:+: (seasonErr "monsoon").data) :=
  ⟨by decide, parse_inputs_unknown_season "monsoon" (by decide)⟩

/-- C7: when both the season and the plant text fail to resolve,
`parse_inputs` returns exactly two error messages, the season error
before the plant error; the two fields are validated independently. -/
theorem parse_inputs_both_invalid (rs rp : String)
    (hs : SEASON_ALIASES.lookup (normalize rs) = none)
    (hp : PLANT_ALIASES.lookup (normalize rp) = none) :
    parse_inputs (some rs) (some rp) =
      (none, none, [seasonErr rs, plantErr rp]) := by
  simp [parse_inputs, resolve_season, resolve_plant, hs, hp]

/-- Witness for C7 at the concrete invalid pair ("monsoon", "cactus"). -/
theorem parse_inputs_both_invalid_witness :
    SEASON_ALIASES.lookup (normalize "monsoon") = none ∧
    PLANT_ALIASES.lookup (normalize "cactus") = none ∧
    parse_inputs (some "monsoon") (some "cactus") =
      (none, none, [seasonErr "monsoon", plantErr "cactus"]) :=
  ⟨by decide, by decide,
   parse_inputs_both_invalid "monsoon" "cactus" (by decide) (by decide)⟩

/-- C8: an absent field is valid and skipped: a `none` season or plant
argument contributes no key and no error message, and in particular
`parse_inputs none none = (none, none, [])`. -/
theorem parse_inputs_absent_fields :
    parse_inputs none none = (none, none, []) ∧
    (∀ rp, parse_inputs none rp =
      (none, (resolve_plant rp).1, (resolve_plant rp).2)) ∧
    (∀ rs, parse_inputs rs none =
      ((resolve_season rs).1, none, (resolve_season rs).2)) := by
  refine ⟨rfl, ?_, ?_⟩
  · intro rp
    simp [parse_inputs, resolve_season]
  · intro rs
    simp [parse_inputs, resolve_plant]

/-- C9: the season keys of `ADVICE` and of `RECOMMENDATIONS` are exactly
the value set of `SEASON_ALIASES`, and the plant keys of every season
bucket of `ADVICE` are exactly the value set of `PLANT_ALIASES` — no
orphan keys in either direction. -/
theorem tables_no_orphan_keys :
    (∀ k : String, k ∈ ADVICE.map Prod.fst ↔ k ∈ SEASON_ALIASES.map Prod.snd) ∧
    (∀ k : String,
      k ∈ RECOMMENDATIONS.map Prod.fst ↔ k ∈ SEASON_ALIASES.map Prod.snd) ∧
    (∀ i : Fin ADVICE.length, ∀ k : String,
      k ∈ (ADVICE.get i).2.map Prod.fst ↔ k ∈ PLANT_ALIASES.map Prod.snd) := by
  refine ⟨?_, ?_, ?_⟩
  · intro k
    simp [ADVICE, SEASON_ALIASES]
  · intro k
    simp [RECOMMENDATIONS, SEASON_ALIASES]
  · intro i k
    fin_cases i <;>
      simp only [ADVICE, List.get_eq_getElem, List.getElem_cons_zero,
        List.getElem_cons_succ, PLANT_ALIASES] <;>
      simp

/-- C10: `get_advice` is total over arbitrary strings; for a season key
absent from both tables it returns exactly the fallback line, with no
recommendation footer, whatever the plant key is. -/
theorem get_advice_total_unknown_season (s p : String)
    (ha : ADVICE.lookup s = none) (hr : RECOMMENDATIONS.lookup s = none) :
    get_advice s p = fallbackLine := by
  simp only [get_advice, ha, hr, Option.getD_none, List.lookup_nil, if_pos rfl]
  rfl

/-- Witness for C10 at the concrete input ("monsoon", "cactus"). -/
theorem get_advice_total_unknown_season_witness :
    ADVICE.lookup "monsoon" = none ∧
    RECOMMENDATIONS.lookup "monsoon" = none ∧
    get_advice "monsoon" "cactus" = fallbackLine :=
  ⟨by decide, by decide,
   get_advice_total_unknown_season "monsoon" "cactus" (by decide) (by decide)⟩

end Garden
